import Mathlib

/-!
Verification of the sec-form4-collector ingestion pipeline.

Shallow embedding of the core of the repository:
* `src/src/utils/rate_limiter.py` — sliding-window and adaptive rate limiter;
* `src/src/data_collection/bulk_downloader.py` — single-filing fetch with retry,
  batch dedup/upsert store, concurrent download orchestration;
* `src/src/data_collection/edgar_downloader.py` — rate-limited HTTP request with
  tenacity retry;
* `src/src/data_collection/bulk_processor.py` — per-item-transaction storage batch;
* `src/src/data_collection/comprehensive_scraper.py` — per-year progress selection.

Conventions: wall-clock timestamps and delays are rationals (Python floats
carry exact small decimals in every scenario we evaluate); Python ints are `Int`
(they are unbounded); the SQLAlchemy session is modelled as a pair
(committed state, current state): `add`/`update` act on the current state,
`rollback` resets the current state to the committed one, `commit` publishes the
current state.  Queries read the current state, matching autoflush semantics.
-/

namespace SecForm4

/-! ## RateLimiter (rate_limiter.py, lines 35-57)

`RateLimiter.wait_if_needed` under the lock, for one call entering at wall-clock
time `t`:
1. drop the timestamps `r ≤ t - time_window` from the front of the deque;
2. if the deque still holds at least `max_requests` entries, compute
   `wait = requests[0] + time_window - t`; if `wait > 0`, sleep for `wait`,
   pop the front entry, and then
3. append `t` — the time captured BEFORE the sleep — and return.

The returned value is `(deque afterwards, time at which the call returns)`.
`none` models the `IndexError` Python raises at `self.requests[0]` when
`max_requests = 0` and the deque is empty; with `max_requests ≥ 1` the result is
always `some`. -/
def waitIfNeeded (maxRequests : ℕ) (timeWindow : ℚ) (requests : List ℚ) (t : ℚ) :
    Option (List ℚ × ℚ) :=
  let reqs := requests.dropWhile (fun r => decide (r ≤ t - timeWindow))
  if maxRequests ≤ reqs.length then
    match reqs with
    | [] => none
    | r0 :: rest =>
      let wait := r0 + timeWindow - t
      if 0 < wait then some (rest ++ [t], t + wait)
      else some ((r0 :: rest) ++ [t], t)
  else
    some (reqs ++ [t], t)

/-- Sequential driver for `waitIfNeeded`: one caller issues a sequence of calls,
entering the `i`-th call `gaps[i]` seconds after the previous call returned
(the first call enters `gaps[0]` seconds after time 0).  Accumulates the
timestamps recorded in the window (the appended entry times) and the times at
which each call returns (the actual admission times). -/
def rlRunAux (maxRequests : ℕ) (timeWindow : ℚ) :
    List ℚ → List ℚ → ℚ → List ℚ → List ℚ → Option (List ℚ × List ℚ)
  | [], _reqs, _clock, recorded, returns => some (recorded.reverse, returns.reverse)
  | g :: gs, reqs, clock, recorded, returns =>
    let t := clock + g
    match waitIfNeeded maxRequests timeWindow reqs t with
    | none => none
    | some (reqs2, ret) =>
      rlRunAux maxRequests timeWindow gs reqs2 ret (t :: recorded) (ret :: returns)

/-- Run a sequence of `wait_if_needed` calls against a fresh limiter, returning
(recorded timestamps, return times). -/
def rlRun (maxRequests : ℕ) (timeWindow : ℚ) (gaps : List ℚ) :
    Option (List ℚ × List ℚ) :=
  rlRunAux maxRequests timeWindow gaps [] 0 [] []

/-- Number of events of `l` falling inside the half-open sliding window
`[s, s + w)`. -/
def countWithin (l : List ℚ) (s w : ℚ) : ℕ :=
  (l.filter (fun x => decide (s ≤ x) && decide (x < s + w))).length

/-! ## AdaptiveRateLimiter (rate_limiter.py, lines 116-182)

Only the admission-ceiling fields are modelled; the sliding window inherited
from `RateLimiter` is independent state and is not read by
`handle_rate_limit_exceeded` / `handle_successful_request`. -/

structure ARLState where
  maxRequests : ℤ
  originalMaxRequests : ℤ
  minRequests : ℤ
  backoffFactor : ℚ
  consecutiveSuccesses : ℕ
  backoffActive : Bool
deriving DecidableEq

/-- Python `int(q)`: truncation toward zero. -/
def pyTrunc (q : ℚ) : ℤ := if 0 ≤ q then ⌊q⌋ else -⌊-q⌋

/-- `AdaptiveRateLimiter.__init__(max_requests, time_window, min_requests,
backoff_factor)`: the original ceiling is the initial `max_requests`, the
consecutive-success counter starts at 0 and backoff is inactive. -/
def arlInit (maxRequests minRequests : ℤ) (backoffFactor : ℚ) : ARLState :=
  { maxRequests := maxRequests
    originalMaxRequests := maxRequests
    minRequests := minRequests
    backoffFactor := backoffFactor
    consecutiveSuccesses := 0
    backoffActive := false }

/-- `handle_rate_limit_exceeded` (lines 142-156): shrink the ceiling to
`max(min_requests, int(max_requests * backoff_factor))`, reset the
consecutive-success counter, activate backoff. -/
def handleRateLimitExceeded (s : ARLState) : ARLState :=
  { s with
    maxRequests := max s.minRequests (pyTrunc ((s.maxRequests : ℚ) * s.backoffFactor))
    consecutiveSuccesses := 0
    backoffActive := true }

/-- `handle_successful_request` (lines 158-182): no-op unless backoff is
active; otherwise increment the consecutive-success counter; once it reaches
10, raise the ceiling to `min(original_max_requests, max_requests + 1)`, reset
the counter, and clear backoff exactly when the new ceiling has reached the
original maximum. -/
def handleSuccessfulRequest (s : ARLState) : ARLState :=
  if s.backoffActive = false then s
  else
    let cs := s.consecutiveSuccesses + 1
    if 10 ≤ cs then
      let newMax := min s.originalMaxRequests (s.maxRequests + 1)
      { s with
        maxRequests := newMax
        consecutiveSuccesses := 0
        backoffActive := if s.originalMaxRequests ≤ newMax then false else s.backoffActive }
    else
      { s with consecutiveSuccesses := cs }

/-- The two adaptive-limiter inputs. -/
inductive ARLOp
  | throttled
  | success
deriving DecidableEq

def applyOp (s : ARLState) : ARLOp → ARLState
  | ARLOp.throttled => handleRateLimitExceeded s
  | ARLOp.success => handleSuccessfulRequest s

/-- An arbitrary interleaving of `handle_rate_limit_exceeded` and
`handle_successful_request` calls. -/
def applyOps (s : ARLState) (ops : List ARLOp) : ARLState :=
  ops.foldl applyOp s

/-- Combined invariant for the adaptive limiter: ceiling between the configured
floor and the configured original maximum, floor nonnegative, backoff factor a
genuine reduction factor. -/
def ARLInv (s : ARLState) : Prop :=
  0 ≤ s.minRequests ∧ s.minRequests ≤ s.maxRequests ∧
    s.maxRequests ≤ s.originalMaxRequests ∧
    0 ≤ s.backoffFactor ∧ s.backoffFactor ≤ 1

/-! ## Single-filing fetch (bulk_downloader.py lines 265-351, edgar_downloader.py
lines 82-119)

The HTTP environment is an oracle mapping the attempt index to an outcome:
either a response with a status code and body, or a transport-level exception.
Jitter (`random.uniform`) is an oracle indexed by the order of draws.  Both
fetch routines additionally report a trace of externally visible effects:
sleeps and calls into the shared adaptive rate limiter. -/

inductive HttpResult
  | status (code : ℕ) (body : String)
  | netExc (msg : String)
deriving DecidableEq

inductive Effect
  | sleep (seconds : ℚ)
  | limiterWait
  | limiterSuccess
  | limiterThrottled
deriving DecidableEq

inductive DownloadResult
  | success (xmlContent : String)
  | error (msg : String)
deriving DecidableEq

def isSuccess : DownloadResult → Bool
  | DownloadResult.success _ => true
  | DownloadResult.error _ => false

/-- First index at which `pat` occurs as a contiguous sublist of `hay`
(Python `str.find`), `none` when absent (Python returns -1). -/
def findSub : List Char → List Char → Option ℕ
  | _, [] => some 0
  | [], _ :: _ => none
  | c :: cs, p :: ps =>
    if (p :: ps).isPrefixOf (c :: cs) then some 0
    else (findSub cs (p :: ps)).map (· + 1)

/-- Python `s[a:b]` for `0 ≤ a ≤ b` use below: drop `a` characters then keep
`b - a` (empty when `b ≤ a`). -/
def pySlice (s : List Char) (a : ℕ) (b : ℤ) : List Char :=
  (s.drop a).take ((b - a).toNat)

def openTag : List Char := "<ownershipDocument>".data

def closeTag : List Char := "</ownershipDocument>".data

/-- bulk_downloader.py lines 306-310: when the open tag occurs in the payload,
slice from its first occurrence to the first occurrence of the close tag plus
the close tag's length.  Python's `find` returns -1 when the close tag is
absent, making the slice end `-1 + 20 = 19`; the guard `end != -1` therefore
still passes and the slice is taken, which the model reproduces. -/
def pyExtract (xml : String) : String :=
  match findSub xml.data openTag with
  | none => xml
  | some start =>
    let stop : ℤ :=
      (match findSub xml.data closeTag with
        | some e => (e : ℤ)
        | none => -1) + (closeTag.length : ℤ)
    String.mk (pySlice xml.data start stop)

structure FetchOutcome where
  result : DownloadResult
  effects : List Effect
  attempts : ℕ
deriving DecidableEq

/-- `SECBulkDownloader._download_single_filing` (lines 265-351), attempt loop.
`remaining` is the number of loop iterations left (3 at entry), `attempt` the
0-based index of the current attempt, `draw` the index of the next jitter draw.
Per attempt: sleep a jittered delay (`uniform(0.5, 1)` before attempt 0,
`1.0 * 2^attempt + uniform(0.5, 1)` otherwise); issue the request.
Status 200: payloads under 100 characters are rejected as too short, otherwise
the (possibly envelope-extracted) content is returned.  Status 429: when
attempts remain, sleep `10 * 2^attempt + uniform(1, 5)` and retry; on the last
attempt return the terminal throttle error.  Any other status, and any
transport exception (caught by the function-level handler), returns a terminal
error immediately.  The `remaining = 0` case is unreachable from
`downloadSingleFiling` because the third attempt always returns. -/
def dsfLoop (resp : ℕ → HttpResult) (jitter : ℕ → ℚ) :
    ℕ → ℕ → ℕ → FetchOutcome
  | 0, attempt, _draw => ⟨DownloadResult.error "unreachable", [], attempt⟩
  | remaining + 1, attempt, draw =>
    let delay : ℚ := if attempt = 0 then jitter draw else (2 : ℚ) ^ attempt + jitter draw
    match resp attempt with
    | HttpResult.netExc msg =>
      ⟨DownloadResult.error msg, [Effect.sleep delay], attempt + 1⟩
    | HttpResult.status code body =>
      if code = 200 then
        if body.length < 100 then
          ⟨DownloadResult.error ("Content too short: " ++ toString body.length ++ " bytes"),
            [Effect.sleep delay], attempt + 1⟩
        else
          ⟨DownloadResult.success (pyExtract body), [Effect.sleep delay], attempt + 1⟩
      else if code = 429 then
        if attempt < 2 then
          let retryDelay : ℚ := 10 * (2 : ℚ) ^ attempt + jitter (draw + 1)
          let out := dsfLoop resp jitter remaining (attempt + 1) (draw + 2)
          ⟨out.result, Effect.sleep delay :: Effect.sleep retryDelay :: out.effects, out.attempts⟩
        else
          ⟨DownloadResult.error "Rate limited by SEC - too many requests",
            [Effect.sleep delay], attempt + 1⟩
      else
        ⟨DownloadResult.error ("HTTP " ++ toString code), [Effect.sleep delay], attempt + 1⟩

/-- One filing fetch by the bulk downloader: `max_retries = 3` attempts.  Note
that this code path holds no reference to any rate limiter: the only effects it
can emit are sleeps. -/
def downloadSingleFiling (resp : ℕ → HttpResult) (jitter : ℕ → ℚ) : FetchOutcome :=
  dsfLoop resp jitter 3 0 0

structure RequestOutcome where
  result : Except String String
  effects : List Effect
  attempts : ℕ

/-- Tenacity `wait_exponential(multiplier=1, min=4, max=10)` before retry `n`:
an exponential wait clamped to `[4, 10]`.  No claim depends on the exact
pre-clamp exponent, only on the attempt count and the notification trace. -/
def tenacityWait (n : ℕ) : ℚ := min 10 (max 4 ((2 : ℚ) ^ n))

/-- `EDGARDownloader._make_request` (lines 82-119) under its tenacity decorator
`retry(stop=stop_after_attempt(3), wait=wait_exponential(...),
retry=retry_if_exception_type((requests.RequestException, requests.Timeout)))`.
Each attempt first calls `rate_limiter.wait_if_needed()`.  A status below 400
passes `raise_for_status`, notifies the adaptive limiter of success and
returns.  A 429 notifies the adaptive limiter (`handle_rate_limit_exceeded`),
sleeps 5 s and re-raises; any other 4xx/5xx `HTTPError` and any transport
exception is re-raised unchanged.  `requests.exceptions.HTTPError` is a
subclass of `requests.RequestException`, so tenacity retries ALL of these
failures, sleeping the clamped exponential wait between attempts, and raises
after the third failed attempt. -/
def mrLoop (resp : ℕ → HttpResult) : ℕ → ℕ → RequestOutcome
  | 0, attempt => ⟨Except.error "RetryError", [], attempt⟩
  | remaining + 1, attempt =>
    let fail := fun (effs : List Effect) (msg : String) =>
      match remaining with
      | 0 => RequestOutcome.mk (Except.error msg) effs (attempt + 1)
      | r + 1 =>
        let out := mrLoop resp (r + 1) (attempt + 1)
        RequestOutcome.mk out.result
          (effs ++ Effect.sleep (tenacityWait (attempt + 1)) :: out.effects) out.attempts
    match resp attempt with
    | HttpResult.netExc msg => fail [Effect.limiterWait] msg
    | HttpResult.status code body =>
      if code < 400 then
        RequestOutcome.mk (Except.ok body) [Effect.limiterWait, Effect.limiterSuccess] (attempt + 1)
      else if code = 429 then
        fail [Effect.limiterWait, Effect.limiterThrottled, Effect.sleep 5]
          ("HTTPError " ++ toString code)
      else
        fail [Effect.limiterWait] ("HTTPError " ++ toString code)

def makeRequest (resp : ℕ → HttpResult) : RequestOutcome := mrLoop resp 3 0

/-! ## Worker-pool cap (bulk_downloader.py lines 38-67, 508-524) -/

/-- `SECBulkDownloader.__init__`: a requested `max_workers` above 8 is reduced
to 8; `download_and_store_filings` builds its `ThreadPoolExecutor` with exactly
`self.max_workers`. -/
def capMaxWorkers (requested : ℕ) : ℕ := if requested > 8 then 8 else requested

/-! ## Batch store and bulk ingest (bulk_downloader.py lines 353-564)

The persistent store is the `form4_filings` table restricted to the fields the
claims are about: an insertion-ordered association list from accession number
(the natural key, unique-indexed) to `xml_content`.  The `companies` parent
table and the remaining filing columns are orthogonal to every claim and are
omitted.  A SQLAlchemy session is a pair (committed, current): queries read
`current` (autoflush), `session.add` / attribute updates act on `current`,
`session.rollback()` resets `current` to `committed`, and the final
`session.commit()` publishes `current`.  Whether storing a given item raises is
an environment choice, modelled by an oracle from the item's position in the
batch to an outcome. -/

abbrev Store := List (String × String)

def lookupStore (s : Store) (k : String) : Option String := s.lookup k

def storeKeys (s : Store) : List String := s.map Prod.fst

structure Filing where
  accessionNumber : String
  cik : String
deriving DecidableEq

structure ItemResult where
  filing : Filing
  result : DownloadResult
deriving DecidableEq

/-- Outcome of attempting to store one item: no exception, an `IntegrityError`
whose text contains "duplicate key" (benign, not counted), any other
`IntegrityError` (counted as an error), or a generic storage exception
(counted as an error).  All three exceptional outcomes trigger
`session.rollback()` in `_batch_store_filings`. -/
inductive StoreExc
  | ok
  | dupKey
  | integrityOther
  | failure
deriving DecidableEq

structure BatchStats where
  stored : ℕ
  errors : ℕ
deriving DecidableEq

/-- In-place overwrite of the record with key `k` (attribute assignment on the
queried ORM object). -/
def updateStore (s : Store) (k v : String) : Store :=
  s.map (fun p => if p.1 = k then (k, v) else p)

/-- `SECBulkDownloader._batch_store_filings` (lines 353-457), item loop.
A result whose status is not success only increments `errors`.  Otherwise, if
storing raises (oracle): rollback, plus one error unless it is a benign
duplicate-key violation.  Otherwise the code queries the natural key: present
and force → overwrite content in place, count stored; present and not force →
skip silently (no counter); absent → add the new record, count stored.  The
commit after the loop publishes the current session state. -/
def batchStoreGo (force : Bool) (exc : ℕ → StoreExc) :
    List ItemResult → ℕ → Store → Store → BatchStats → Store × BatchStats
  | [], _i, _committed, current, stats => (current, stats)
  | r :: rs, i, committed, current, stats =>
    match r.result with
    | DownloadResult.error _ =>
      batchStoreGo force exc rs (i + 1) committed current ⟨stats.stored, stats.errors + 1⟩
    | DownloadResult.success xml =>
      match exc i with
      | StoreExc.failure =>
        batchStoreGo force exc rs (i + 1) committed committed ⟨stats.stored, stats.errors + 1⟩
      | StoreExc.integrityOther =>
        batchStoreGo force exc rs (i + 1) committed committed ⟨stats.stored, stats.errors + 1⟩
      | StoreExc.dupKey =>
        batchStoreGo force exc rs (i + 1) committed committed stats
      | StoreExc.ok =>
        match lookupStore current r.filing.accessionNumber with
        | some _ =>
          if force then
            batchStoreGo force exc rs (i + 1) committed
              (updateStore current r.filing.accessionNumber xml)
              ⟨stats.stored + 1, stats.errors⟩
          else
            batchStoreGo force exc rs (i + 1) committed current stats
        | none =>
          batchStoreGo force exc rs (i + 1) committed
            (current ++ [(r.filing.accessionNumber, xml)])
            ⟨stats.stored + 1, stats.errors⟩

def batchStoreFilings (force : Bool) (exc : ℕ → StoreExc) (store : Store)
    (results : List ItemResult) : Store × BatchStats :=
  batchStoreGo force exc results 0 store store ⟨0, 0⟩

structure RunStats where
  downloaded : ℕ
  stored : ℕ
  errors : ℕ
  skipped : ℕ
deriving DecidableEq

/-- Fixed-size chunking (`download_batch_size = 50`); `chunksOf n` produces
chunks of `n + 1` elements so that the recursion is well founded for every
parameter. -/
def chunksOf (n : ℕ) : List α → List (List α)
  | [] => []
  | x :: xs => ((x :: xs).take (n + 1)) :: chunksOf n ((x :: xs).drop (n + 1))
termination_by l => l.length
decreasing_by simp [List.length_drop]; omega

/-- `download_and_store_filings` (lines 504-562), chunk loop: fetch every
filing of the chunk (the thread pool is sequentialised in submission order;
the per-chunk throttle-fraction check only prints and sleeps), count
downloads and download failures, then run `_batch_store_filings` on the chunk
and accumulate its counters.  `exc j i` is the storage outcome of item `i` of
chunk `j`. -/
def processChunks (force : Bool) (fetch : Filing → DownloadResult)
    (exc : ℕ → ℕ → StoreExc) :
    List (List Filing) → ℕ → Store → RunStats → Store × RunStats
  | [], _j, store, stats => (store, stats)
  | chunk :: rest, j, store, stats =>
    let results := chunk.map (fun f => ItemResult.mk f (fetch f))
    let dl := (results.filter (fun r => isSuccess r.result)).length
    let fe := results.length - dl
    let sb := batchStoreFilings force (exc j) store results
    processChunks force fetch exc rest (j + 1) sb.1
      ⟨stats.downloaded + dl, stats.stored + sb.2.stored,
        stats.errors + fe + sb.2.errors, stats.skipped⟩

/-- `SECBulkDownloader.download_and_store_filings` (lines 459-564).  In force
mode every filing is processed.  Otherwise the batched existence pre-filter
(which only reads the unchanged store, in key batches of 1000) drops the
filings whose accession number is already stored, counting each as skipped,
and the remainder is processed in chunks of 50. -/
def downloadAndStoreFilings (force : Bool) (fetch : Filing → DownloadResult)
    (exc : ℕ → ℕ → StoreExc) (store : Store) (allFilings : List Filing) :
    Store × RunStats :=
  if force then
    processChunks force fetch exc (chunksOf 49 allFilings) 0 store ⟨0, 0, 0, 0⟩
  else
    let toProcess := allFilings.filter (fun f => (lookupStore store f.accessionNumber).isNone)
    let skipped :=
      (allFilings.filter (fun f => (lookupStore store f.accessionNumber).isSome)).length
    processChunks force fetch exc (chunksOf 49 toProcess) 0 store ⟨0, 0, 0, skipped⟩

/-- Storage oracle that never raises. -/
def allOk : ℕ → StoreExc := fun _ => StoreExc.ok

/-- Per-chunk storage oracle that never raises. -/
def allOk2 : ℕ → ℕ → StoreExc := fun _ _ => StoreExc.ok

/-- Storage oracle raising a generic exception exactly at position `i`. -/
def failAt (i : ℕ) : ℕ → StoreExc := fun j => if j = i then StoreExc.failure else StoreExc.ok

/-- Effect of storing one fetched item in non-force mode when storage raises
nothing: insert exactly when the natural key is absent.  Proven below to
characterise `_batch_store_filings`; the claims about idempotence reason over
this form. -/
def insertResult (store : Store) (r : ItemResult) : Store :=
  match r.result with
  | DownloadResult.success xml =>
    if (lookupStore store r.filing.accessionNumber).isSome then store
    else store ++ [(r.filing.accessionNumber, xml)]
  | DownloadResult.error _ => store

/-- Non-force exception-free ingest of a filing list, in order. -/
def runInsert (fetch : Filing → DownloadResult) (store : Store) (fs : List Filing) : Store :=
  fs.foldl (fun st f => insertResult st (ItemResult.mk f (fetch f))) store

/-! ## Per-item-transaction storage batch (bulk_processor.py lines 288-341)

`BulkProcessor._process_storage_batch` stores each item of the batch in its own
session/transaction ("to avoid rollback issues"): an exception while storing
one item is caught per item, rolls back only that item's transaction, and the
loop continues.  A duplicate-key `IntegrityError` is not counted as an error;
other integrity errors and generic exceptions each count one error.  The
parsed-record fields and child tables written by `_store_parsed_form4` beyond
the (accession number ↦ xml_content) record are orthogonal to every claim and
are omitted. -/
def processStorageBatchGo (exc : ℕ → StoreExc) :
    List (Filing × String) → ℕ → Store → BatchStats → Store × BatchStats
  | [], _i, store, stats => (store, stats)
  | b :: rest, i, store, stats =>
    match exc i with
    | StoreExc.failure =>
      processStorageBatchGo exc rest (i + 1) store ⟨stats.stored, stats.errors + 1⟩
    | StoreExc.integrityOther =>
      processStorageBatchGo exc rest (i + 1) store ⟨stats.stored, stats.errors + 1⟩
    | StoreExc.dupKey =>
      processStorageBatchGo exc rest (i + 1) store stats
    | StoreExc.ok =>
      match lookupStore store b.1.accessionNumber with
      | some _ => processStorageBatchGo exc rest (i + 1) store stats
      | none =>
        processStorageBatchGo exc rest (i + 1)
          (store ++ [(b.1.accessionNumber, b.2)]) ⟨stats.stored + 1, stats.errors⟩

def processStorageBatch (exc : ℕ → StoreExc) (store : Store)
    (batch : List (Filing × String)) : Store × BatchStats :=
  processStorageBatchGo exc batch 0 store ⟨0, 0⟩

/-! ## Year selection (comprehensive_scraper.py lines 120-154)

The per-year progress records live in the `downloaded_years` table (the
`DownloadedYear` model), of which `get_years_to_process` reads the `status`
string and the `download_started` timestamp.  Timestamps are integer epoch
seconds; Python computes `(now - started).total_seconds() / 3600 > 24`, the
strict comparison it performs on exact values. -/

structure YearRecord where
  status : String
  downloadStarted : Option ℤ
deriving DecidableEq

def yearRange (startYear endYear : ℤ) : List ℤ :=
  (List.range (endYear + 1 - startYear).toNat).map (fun i => startYear + i)

/-- Loop body of `get_years_to_process`: force takes every year; otherwise a
year is taken when it has no record, status pending or failed, or status
in_progress with a started timestamp and more than 24 hours elapsed. -/
def yearNeedsWork (force : Bool) (rec : Option YearRecord) (now : ℤ) : Bool :=
  if force then true
  else
    match rec with
    | none => true
    | some r =>
      if r.status == "pending" || r.status == "failed" then true
      else if r.status == "in_progress" then
        match r.downloadStarted with
        | some started => decide ((((now - started : ℤ) : ℚ) / 3600) > 24)
        | none => false
      else false

/-- `ComprehensiveScraper.get_years_to_process`: the loop walks the range in
ascending order and the final `sorted(...)` is the identity on it, so the
result is the ascending filter of the range by the loop condition. -/
def getYearsToProcess (records : ℤ → Option YearRecord) (now : ℤ)
    (startYear endYear : ℤ) (force : Bool) : List ℤ :=
  (yearRange startYear endYear).filter (fun y => yearNeedsWork force (records y) now)

/-- The claim's own wording of the incremental filter, stated independently of
the code: no progress record, status failed (or pending), or status
in_progress whose started timestamp is more than the 24-hour staleness
threshold (86400 seconds) in the past. -/
def needsWorkSpec (rec : Option YearRecord) (now : ℤ) : Prop :=
  rec = none ∨
    (∃ r, rec = some r ∧ (r.status = "pending" ∨ r.status = "failed")) ∨
    (∃ r s, rec = some r ∧ r.status = "in_progress" ∧
      r.downloadStarted = some s ∧ 86400 < now - s)

/-- HTTP environment that answers 429 to every attempt. -/
def c3Resp : ℕ → HttpResult := fun _ => HttpResult.status 429 ""

/-- HTTP environment that answers 404 to every attempt. -/
def c4Resp404 : ℕ → HttpResult := fun _ => HttpResult.status 404 ""

/-- HTTP environment whose every attempt raises a transport exception. -/
def c4RespExc : ℕ → HttpResult := fun _ => HttpResult.netExc "connection reset"

/-- Jitter oracle: every uniform draw returns 1. -/
def constJitter : ℕ → ℚ := fun _ => 1

/-- Fetch environment for concrete ingest runs: descriptor B always fails with
a permanent HTTP error, every other descriptor downloads successfully. -/
def c6Fetch : Filing → DownloadResult := fun f =>
  if f.accessionNumber == "B" then DownloadResult.error "HTTP 404"
  else DownloadResult.success "content"

/-- A concrete descriptor list with a repeated natural key. -/
def c6Filings : List Filing := [⟨"A", "1"⟩, ⟨"B", "2"⟩, ⟨"A", "1"⟩]

/-! # Theorems -/

/-- C1: the sliding-window bound does not hold on the code.  `wait_if_needed`
records `current_time` — captured before the sleep — so a blocked call appends
a timestamp that is up to a full window old.  With `max_requests = 2`,
`time_window = 10` and one sequential caller re-entering with gaps
`[0, 1, 1, 0, 0]`, the recorded window receives the timestamps `0, 1, 2`:
three admissions within one 10-second window.  The stale entries then expire a
full window early, so calls 3, 4, 5 actually return (are admitted) at times
`10, 11, 12` — again three admissions inside one 10-second window against a
ceiling of two. -/
theorem rateLimiter_window_bound_violated :
    rlRun 2 10 [0, 1, 1, 0, 0] = some ([0, 1, 2, 10, 11], [0, 1, 10, 11, 12]) ∧
    countWithin [0, 1, 2, 10, 11] 0 10 = 3 ∧
    countWithin [0, 1, 10, 11, 12] 10 10 = 3 ∧ 2 < 3 := by
  refine ⟨?_, ?_, ?_, by norm_num⟩
  · norm_num [rlRun, rlRunAux, waitIfNeeded, List.dropWhile]
  · norm_num [countWithin, List.filter]
  · norm_num [countWithin, List.filter]

/-- C5: the effective worker-pool bound configured by the constructor equals
`min(requested, 8)`: values above the hard ceiling of 8 are reduced to 8,
smaller values pass through. -/
theorem capMaxWorkers_eq_min : ∀ w : ℕ, capMaxWorkers w = min w 8 := by
  intro w
  simp only [capMaxWorkers]
  split <;> omega

lemma elapsedHours_gt_iff (now started : ℤ) :
    (24 < ((now : ℚ) - (started : ℚ)) / 3600) ↔ 86400 < now - started := by
  rw [lt_div_iff₀ (by norm_num : (0 : ℚ) < 3600)]
  rw [show ((24 : ℚ) * 3600) = ((86400 : ℤ) : ℚ) by norm_num]
  rw [show ((now : ℚ) - (started : ℚ)) = (((now - started : ℤ)) : ℚ) by push_cast; ring]
  exact Int.cast_lt

lemma yearNeedsWork_incremental_iff (rec : Option YearRecord) (now : ℤ) :
    yearNeedsWork false rec now = true ↔ needsWorkSpec rec now := by
  cases rec with
  | none => simp [yearNeedsWork, needsWorkSpec]
  | some r =>
    by_cases hp : r.status = "pending"
    · simp [yearNeedsWork, needsWorkSpec, hp]
    · by_cases hf : r.status = "failed"
      · simp [yearNeedsWork, needsWorkSpec, hf]
      · by_cases hi : r.status = "in_progress"
        · cases hs : r.downloadStarted with
          | none => simp [yearNeedsWork, needsWorkSpec, hp, hf, hi, hs]
          | some started =>
            simp [yearNeedsWork, needsWorkSpec, hp, hf, hi, hs, elapsedHours_gt_iff]
        · simp [yearNeedsWork, needsWorkSpec, hp, hf, hi]

/-- C9: `get_years_to_process` under force returns every year of the range;
in incremental mode a year is returned exactly when it has no progress record,
status pending or failed, or status in_progress whose started timestamp is
more than the 24-hour staleness threshold in the past.  In particular an
in_progress year started 30 hours ago is included, one started 10 hours ago is
excluded, and completed years are never returned. -/
theorem getYearsToProcess_spec :
    (∀ (records : ℤ → Option YearRecord) (now startYear endYear : ℤ),
      getYearsToProcess records now startYear endYear true = yearRange startYear endYear) ∧
    (∀ (records : ℤ → Option YearRecord) (now startYear endYear y : ℤ),
      y ∈ getYearsToProcess records now startYear endYear false ↔
        (y ∈ yearRange startYear endYear ∧ needsWorkSpec (records y) now)) ∧
    yearNeedsWork false (some ⟨"in_progress", some 0⟩) (30 * 3600) = true ∧
    yearNeedsWork false (some ⟨"in_progress", some 0⟩) (10 * 3600) = false ∧
    (∀ (st : Option ℤ) (now : ℤ),
      yearNeedsWork false (some ⟨"completed", st⟩) now = false) := by
  refine ⟨?_, ?_, ?_, ?_, ?_⟩
  · intro records now sy ey
    simp [getYearsToProcess, yearNeedsWork]
  · intro records now sy ey y
    rw [getYearsToProcess, List.mem_filter, yearNeedsWork_incremental_iff]
  · simp [yearNeedsWork]
    norm_num
  · simp [yearNeedsWork]
    norm_num
  · intro st now
    cases st <;> simp [yearNeedsWork]

lemma hsr_inactive (s : ARLState) (h : s.backoffActive = false) :
    handleSuccessfulRequest s = s := by
  simp [handleSuccessfulRequest, h]

lemma hsr_incr (s : ARLState) (h : s.backoffActive = true)
    (h2 : s.consecutiveSuccesses + 1 < 10) :
    handleSuccessfulRequest s = { s with consecutiveSuccesses := s.consecutiveSuccesses + 1 } := by
  rw [handleSuccessfulRequest, if_neg (by simp [h]), if_neg (by omega)]

lemma hsr_step (s : ARLState) (h : s.backoffActive = true)
    (h9 : 10 ≤ s.consecutiveSuccesses + 1) :
    handleSuccessfulRequest s =
      { s with
        maxRequests := min s.originalMaxRequests (s.maxRequests + 1)
        consecutiveSuccesses := 0
        backoffActive :=
          if s.originalMaxRequests ≤ min s.originalMaxRequests (s.maxRequests + 1)
          then false else true } := by
  rw [handleSuccessfulRequest, if_neg (by simp [h]), if_pos h9]
  rw [h]

lemma hsr_iterate_incr (m : ℕ) : ∀ s : ARLState, s.backoffActive = true →
    s.consecutiveSuccesses + m ≤ 9 →
    handleSuccessfulRequest^[m] s = { s with consecutiveSuccesses := s.consecutiveSuccesses + m } := by
  induction m with
  | zero =>
    intro s h hm
    cases s
    simp
  | succ m ih =>
    intro s h hm
    rw [Function.iterate_succ_apply, hsr_incr s h (by omega), ih _ (by simp [h]) (by simp; omega)]
    cases s
    simp
    omega

lemma hsr_ten (s : ARLState) (h : s.backoffActive = true)
    (h9 : s.consecutiveSuccesses ≤ 9) :
    handleSuccessfulRequest^[10 - s.consecutiveSuccesses] s =
      { s with
        maxRequests := min s.originalMaxRequests (s.maxRequests + 1)
        consecutiveSuccesses := 0
        backoffActive :=
          if s.originalMaxRequests ≤ min s.originalMaxRequests (s.maxRequests + 1)
          then false else true } := by
  have h10 : 10 - s.consecutiveSuccesses = (9 - s.consecutiveSuccesses) + 1 := by omega
  rw [h10, Function.iterate_succ_apply', hsr_iterate_incr (9 - s.consecutiveSuccesses) s h (by omega)]
  rw [hsr_step _ (by simp [h]) (by simp; omega)]

lemma hsr_restore : ∀ (k : ℕ) (s : ARLState), s.backoffActive = true →
    s.maxRequests ≤ s.originalMaxRequests → s.consecutiveSuccesses ≤ 9 →
    (s.originalMaxRequests - s.maxRequests).toNat ≤ k →
    ∃ n, (handleSuccessfulRequest^[n] s).maxRequests = s.originalMaxRequests ∧
      (handleSuccessfulRequest^[n] s).backoffActive = false := by
  intro k
  induction k with
  | zero =>
    intro s h hle hcs hk
    have heq : s.maxRequests = s.originalMaxRequests := by omega
    refine ⟨10 - s.consecutiveSuccesses, ?_⟩
    rw [hsr_ten s h hcs]
    have hmin : min s.originalMaxRequests (s.maxRequests + 1) = s.originalMaxRequests := by omega
    constructor
    · simp [hmin]
    · simp [hmin]
  | succ k ih =>
    intro s h hle hcs hk
    by_cases hedge : s.originalMaxRequests ≤ s.maxRequests + 1
    · refine ⟨10 - s.consecutiveSuccesses, ?_⟩
      rw [hsr_ten s h hcs]
      have hmin : min s.originalMaxRequests (s.maxRequests + 1) = s.originalMaxRequests := by omega
      constructor
      · simp [hmin]
      · simp [hmin]
    · have hmin : min s.originalMaxRequests (s.maxRequests + 1) = s.maxRequests + 1 := by omega
      have hs1eq : handleSuccessfulRequest^[10 - s.consecutiveSuccesses] s =
          { s with
            maxRequests := s.maxRequests + 1
            consecutiveSuccesses := 0
            backoffActive := true } := by
        rw [hsr_ten s h hcs, hmin, if_neg hedge]
      obtain ⟨n, hn1, hn2⟩ := ih { s with
          maxRequests := s.maxRequests + 1
          consecutiveSuccesses := 0
          backoffActive := true }
        rfl (by simp; omega) (by simp) (by simp; omega)
      refine ⟨n + (10 - s.consecutiveSuccesses), ?_, ?_⟩
      · rw [Function.iterate_add_apply, hs1eq]
        simpa using hn1
      · rw [Function.iterate_add_apply, hs1eq]
        exact hn2

/-- C2: behaviour of `handle_successful_request`.  It is a no-op when backoff
is inactive; when backoff is active it increments the consecutive-success
counter; when the counter reaches 10 the ceiling rises by one step capped at
the original maximum, the counter resets, and backoff is cleared exactly when
the new ceiling has reached the original maximum.  Consequently sustained
success from any backoff-active state (ceiling at most the original, counter
in range) eventually restores exactly the original ceiling and clears
backoff. -/
theorem handleSuccessfulRequest_spec (s : ARLState) :
    (s.backoffActive = false → handleSuccessfulRequest s = s) ∧
    (s.backoffActive = true → s.consecutiveSuccesses + 1 < 10 →
      handleSuccessfulRequest s =
        { s with consecutiveSuccesses := s.consecutiveSuccesses + 1 }) ∧
    (s.backoffActive = true → s.consecutiveSuccesses = 9 →
      (handleSuccessfulRequest s).maxRequests = min s.originalMaxRequests (s.maxRequests + 1) ∧
      (handleSuccessfulRequest s).consecutiveSuccesses = 0 ∧
      ((handleSuccessfulRequest s).backoffActive = false ↔
        s.originalMaxRequests ≤ s.maxRequests + 1)) ∧
    (s.backoffActive = true → s.maxRequests ≤ s.originalMaxRequests →
      s.consecutiveSuccesses ≤ 9 →
      ∃ n, (handleSuccessfulRequest^[n] s).maxRequests = s.originalMaxRequests ∧
        (handleSuccessfulRequest^[n] s).backoffActive = false) := by
  refine ⟨hsr_inactive s, hsr_incr s, ?_, ?_⟩
  · intro h h9
    rw [hsr_step s h (by omega)]
    refine ⟨rfl, rfl, ?_⟩
    by_cases hif : s.originalMaxRequests ≤ min s.originalMaxRequests (s.maxRequests + 1)
    · rw [if_pos hif]
      simp
      omega
    · rw [if_neg hif]
      simp
      omega
  · intro h hle hcs
    exact hsr_restore (s.originalMaxRequests - s.maxRequests).toNat s h hle hcs le_rfl

/-- C2 witness: the four behaviours at concrete states with original ceiling 3,
floor 1, backoff factor 1/2. -/
theorem handleSuccessfulRequest_spec_witness :
    (handleSuccessfulRequest ⟨3, 3, 1, 1/2, 0, false⟩ = ⟨3, 3, 1, 1/2, 0, false⟩) ∧
    (handleSuccessfulRequest ⟨1, 3, 1, 1/2, 4, true⟩ =
      { (⟨1, 3, 1, 1/2, 4, true⟩ : ARLState) with consecutiveSuccesses := 4 + 1 }) ∧
    ((handleSuccessfulRequest ⟨1, 3, 1, 1/2, 9, true⟩).maxRequests = min 3 (1 + 1) ∧
      (handleSuccessfulRequest ⟨1, 3, 1, 1/2, 9, true⟩).consecutiveSuccesses = 0 ∧
      ((handleSuccessfulRequest ⟨1, 3, 1, 1/2, 9, true⟩).backoffActive = false ↔
        (3 : ℤ) ≤ 1 + 1)) ∧
    (∃ n, (handleSuccessfulRequest^[n] (⟨1, 3, 1, 1/2, 0, true⟩ : ARLState)).maxRequests = 3 ∧
      (handleSuccessfulRequest^[n] (⟨1, 3, 1, 1/2, 0, true⟩ : ARLState)).backoffActive = false) :=
  ⟨(handleSuccessfulRequest_spec _).1 rfl,
    (handleSuccessfulRequest_spec _).2.1 rfl (by norm_num),
    (handleSuccessfulRequest_spec _).2.2.1 rfl rfl,
    (handleSuccessfulRequest_spec _).2.2.2 rfl (by norm_num) (by norm_num)⟩

lemma pyTrunc_le_self (m : ℤ) (f : ℚ) (hm : 0 ≤ m) (hf0 : 0 ≤ f) (hf1 : f ≤ 1) :
    pyTrunc ((m : ℚ) * f) ≤ m := by
  have hprod : (0 : ℚ) ≤ (m : ℚ) * f := by positivity
  rw [pyTrunc, if_pos hprod]
  calc ⌊(m : ℚ) * f⌋ ≤ ⌊(m : ℚ)⌋ :=
        Int.floor_le_floor (mul_le_of_le_one_right (by exact_mod_cast hm) hf1)
    _ = m := Int.floor_intCast m

lemma applyOp_inv (op : ARLOp) (s : ARLState) (h : ARLInv s) :
    ARLInv (applyOp s op) ∧ (applyOp s op).minRequests = s.minRequests ∧
    (applyOp s op).originalMaxRequests = s.originalMaxRequests := by
  obtain ⟨h0, h1, h2, h3, h4⟩ := h
  cases op with
  | throttled =>
    refine ⟨⟨h0, le_max_left _ _, ?_, h3, h4⟩, rfl, rfl⟩
    show max s.minRequests (pyTrunc ((s.maxRequests : ℚ) * s.backoffFactor)) ≤
      s.originalMaxRequests
    exact max_le (h1.trans h2)
      ((pyTrunc_le_self s.maxRequests s.backoffFactor (h0.trans h1) h3 h4).trans h2)
  | success =>
    have hrfl : applyOp s ARLOp.success = handleSuccessfulRequest s := rfl
    by_cases hb : s.backoffActive = false
    · rw [hrfl, hsr_inactive s hb]
      exact ⟨⟨h0, h1, h2, h3, h4⟩, rfl, rfl⟩
    · rw [Bool.not_eq_false] at hb
      by_cases hcs : s.consecutiveSuccesses + 1 < 10
      · rw [hrfl, hsr_incr s hb hcs]
        exact ⟨⟨h0, h1, h2, h3, h4⟩, rfl, rfl⟩
      · rw [hrfl, hsr_step s hb (by omega)]
        refine ⟨⟨h0, ?_, ?_, h3, h4⟩, rfl, rfl⟩
        · show s.minRequests ≤ min s.originalMaxRequests (s.maxRequests + 1)
          omega
        · show min s.originalMaxRequests (s.maxRequests + 1) ≤ s.originalMaxRequests
          omega

lemma applyOps_inv : ∀ (ops : List ARLOp) (s : ARLState), ARLInv s →
    ARLInv (applyOps s ops) ∧ (applyOps s ops).minRequests = s.minRequests ∧
    (applyOps s ops).originalMaxRequests = s.originalMaxRequests := by
  intro ops
  induction ops with
  | nil => exact fun s h => ⟨h, rfl, rfl⟩
  | cons op rest ih =>
    intro s h
    have hstep := applyOp_inv op s h
    have htail := ih (applyOp s op) hstep.1
    exact ⟨htail.1, htail.2.1.trans hstep.2.1, htail.2.2.trans hstep.2.2⟩

/-- C10 (amended): for a limiter constructed with `0 ≤ min_requests ≤
max_requests` and a backoff factor in `[0, 1]` (a genuine reduction factor, as
the default 0.5 is), every interleaving of `handle_rate_limit_exceeded` and
`handle_successful_request` keeps the ceiling between the configured floor and
the configured original maximum. -/
theorem arl_ceiling_invariant (maxR minR : ℤ) (f : ℚ) (ops : List ARLOp)
    (h0 : 0 ≤ minR) (h1 : minR ≤ maxR) (hf0 : 0 ≤ f) (hf1 : f ≤ 1) :
    minR ≤ (applyOps (arlInit maxR minR f) ops).maxRequests ∧
    (applyOps (arlInit maxR minR f) ops).maxRequests ≤ maxR := by
  have hinit : ARLInv (arlInit maxR minR f) := ⟨h0, h1, le_refl _, hf0, hf1⟩
  obtain ⟨⟨_, ha, hb, _, _⟩, hmin, horig⟩ := applyOps_inv ops _ hinit
  constructor
  · calc minR = (applyOps (arlInit maxR minR f) ops).minRequests := hmin.symm
      _ ≤ (applyOps (arlInit maxR minR f) ops).maxRequests := ha
  · calc (applyOps (arlInit maxR minR f) ops).maxRequests
        ≤ (applyOps (arlInit maxR minR f) ops).originalMaxRequests := hb
      _ = maxR := horig

/-- C10 witness: floor 1, ceiling 8, factor 1/2, a throttle followed by
eleven successes stays within the bounds. -/
theorem arl_ceiling_invariant_witness :
    ((0 : ℤ) ≤ 1 ∧ (1 : ℤ) ≤ 8 ∧ (0 : ℚ) ≤ 1/2 ∧ (1 : ℚ)/2 ≤ 1) ∧
    (1 ≤ (applyOps (arlInit 8 1 (1/2))
        (ARLOp.throttled :: List.replicate 11 ARLOp.success)).maxRequests ∧
      (applyOps (arlInit 8 1 (1/2))
        (ARLOp.throttled :: List.replicate 11 ARLOp.success)).maxRequests ≤ 8) :=
  ⟨⟨by norm_num, by norm_num, by norm_num, by norm_num⟩,
    arl_ceiling_invariant 8 1 (1/2) _ (by norm_num) (by norm_num) (by norm_num) (by norm_num)⟩

/-- C3 (amended): in the bulk downloader, a 429 response makes the fetch wait
a longer exponential delay with jitter and retry, with total attempts bounded
by 3; after three 429s the fetch returns the terminal Throttled-classified
failure.  The bulk fetch itself never notifies any adaptive limiter (its
effect trace holds sleeps only); the notification on 429 happens in the EDGAR
downloader's `_make_request`, whose trace is shown to contain the
`handle_rate_limit_exceeded` call. -/
theorem downloadSingleFiling_throttle (resp : ℕ → HttpResult) (jitter : ℕ → ℚ)
    (b0 b1 b2 : String)
    (h0 : resp 0 = HttpResult.status 429 b0) (h1 : resp 1 = HttpResult.status 429 b1)
    (h2 : resp 2 = HttpResult.status 429 b2) :
    downloadSingleFiling resp jitter =
      ⟨DownloadResult.error "Rate limited by SEC - too many requests",
        [Effect.sleep (jitter 0), Effect.sleep (10 + jitter 1), Effect.sleep (2 + jitter 2),
          Effect.sleep (20 + jitter 3), Effect.sleep (4 + jitter 4)], 3⟩ ∧
    (∀ (resp2 : ℕ → HttpResult) (body : String),
      resp2 0 = HttpResult.status 429 body →
      Effect.limiterThrottled ∈ (makeRequest resp2).effects) := by
  constructor
  · simp [downloadSingleFiling, dsfLoop, h0, h1, h2]
    norm_num
  · intro resp2 body hr
    simp [makeRequest, mrLoop, hr]

/-- C3 witness: the throttle path evaluated on the all-429 environment with
unit jitter. -/
theorem downloadSingleFiling_throttle_witness :
    (c3Resp 0 = HttpResult.status 429 "" ∧ c3Resp 1 = HttpResult.status 429 "" ∧
      c3Resp 2 = HttpResult.status 429 "") ∧
    (downloadSingleFiling c3Resp constJitter =
      ⟨DownloadResult.error "Rate limited by SEC - too many requests",
        [Effect.sleep (constJitter 0), Effect.sleep (10 + constJitter 1),
          Effect.sleep (2 + constJitter 2), Effect.sleep (20 + constJitter 3),
          Effect.sleep (4 + constJitter 4)], 3⟩ ∧
      (∀ (resp2 : ℕ → HttpResult) (body : String),
        resp2 0 = HttpResult.status 429 body →
        Effect.limiterThrottled ∈ (makeRequest resp2).effects)) :=
  ⟨⟨rfl, rfl, rfl⟩, downloadSingleFiling_throttle c3Resp constJitter "" "" "" rfl rfl rfl⟩

/-- C3 counterexample: the claim states that the fetch operation notifies the
adaptive limiter on a throttle status, but the bulk downloader holds no
limiter: on an all-429 run it returns the terminal Throttled failure without
ever emitting a limiter notification. -/
theorem downloadSingleFiling_never_notifies :
    (downloadSingleFiling c3Resp constJitter).result =
      DownloadResult.error "Rate limited by SEC - too many requests" ∧
    Effect.limiterThrottled ∉ (downloadSingleFiling c3Resp constJitter).effects := by
  constructor
  · simp [downloadSingleFiling, dsfLoop, c3Resp]
  · simp [downloadSingleFiling, dsfLoop, c3Resp]

/-- C4 (amended): in the bulk downloader, any non-success status other than
429, and any transport exception, yields a terminal failure after exactly one
attempt — no retry.  In the EDGAR downloader, by contrast, `HTTPError` is a
subclass of the `RequestException` that the tenacity policy retries, so a
persistent non-429 failure status still consumes all 3 attempts before
becoming terminal. -/
theorem fetch_terminal_vs_retry :
    (∀ (resp : ℕ → HttpResult) (jitter : ℕ → ℚ) (code : ℕ) (body : String),
      resp 0 = HttpResult.status code body → code ≠ 200 → code ≠ 429 →
      downloadSingleFiling resp jitter =
        ⟨DownloadResult.error ("HTTP " ++ toString code), [Effect.sleep (jitter 0)], 1⟩) ∧
    (∀ (resp : ℕ → HttpResult) (jitter : ℕ → ℚ) (msg : String),
      resp 0 = HttpResult.netExc msg →
      downloadSingleFiling resp jitter =
        ⟨DownloadResult.error msg, [Effect.sleep (jitter 0)], 1⟩) ∧
    (∀ (resp : ℕ → HttpResult) (code : ℕ) (body : String),
      (∀ a, resp a = HttpResult.status code body) → 400 ≤ code →
      (makeRequest resp).attempts = 3) := by
  refine ⟨?_, ?_, ?_⟩
  · intro resp jitter code body h hne200 hne429
    simp [downloadSingleFiling, dsfLoop, h, hne200, hne429]
  · intro resp jitter msg h
    simp [downloadSingleFiling, dsfLoop, h]
  · intro resp code body h hge
    by_cases hc : code = 429
    · simp [makeRequest, mrLoop, h 0, h 1, h 2, hc]
    · simp [makeRequest, mrLoop, h 0, h 1, h 2, hc, if_neg (by omega : ¬code < 400)]

/-- C4 witness: a 404 and a transport exception are terminal after one attempt
in the bulk path, while the EDGAR path retries the persistent 404 three
times. -/
theorem fetch_terminal_vs_retry_witness :
    (c4Resp404 0 = HttpResult.status 404 "" ∧
      downloadSingleFiling c4Resp404 constJitter =
        ⟨DownloadResult.error ("HTTP " ++ toString 404), [Effect.sleep (constJitter 0)], 1⟩) ∧
    (c4RespExc 0 = HttpResult.netExc "connection reset" ∧
      downloadSingleFiling c4RespExc constJitter =
        ⟨DownloadResult.error "connection reset", [Effect.sleep (constJitter 0)], 1⟩) ∧
    ((400 : ℕ) ≤ 404 ∧ (makeRequest c4Resp404).attempts = 3) :=
  ⟨⟨rfl, (fetch_terminal_vs_retry).1 c4Resp404 constJitter 404 "" rfl
      (by norm_num) (by norm_num)⟩,
    ⟨rfl, (fetch_terminal_vs_retry).2.1 c4RespExc constJitter "connection reset" rfl⟩,
    ⟨by norm_num, (fetch_terminal_vs_retry).2.2 c4Resp404 404 "" (fun _ => rfl) (by norm_num)⟩⟩

/-- C4 counterexample: the claim says a non-success status other than the
throttle status is returned immediately with no further attempts, yet the
EDGAR downloader's `_make_request` performs 3 attempts on a persistent 404
response, and 3 attempts on a persistent transport exception: both are retried
by the tenacity policy. -/
theorem makeRequest_retries_terminal_failures :
    (makeRequest c4Resp404).attempts = 3 ∧ (3 : ℕ) ≠ 1 ∧
    (makeRequest c4RespExc).attempts = 3 := by
  refine ⟨?_, by norm_num, ?_⟩
  · simp [makeRequest, mrLoop, c4Resp404]
  · simp [makeRequest, mrLoop, c4RespExc]

/-- C10 counterexample: the claim quantifies over every constructed limiter
with `min_requests ≤ max_requests`, but places no bound on `backoff_factor`.
With `backoff_factor = 2`, a single `handle_rate_limit_exceeded` call raises
the ceiling from 4 to `max(1, int(4 * 2)) = 8`, strictly above the original
maximum 4 — the claimed invariant `max_requests ≤ original_max_requests` is
violated. -/
theorem arl_ceiling_counterexample :
    (arlInit 4 1 2).minRequests ≤ (arlInit 4 1 2).maxRequests ∧
    (arlInit 4 1 2).originalMaxRequests = 4 ∧
    (applyOps (arlInit 4 1 2) [ARLOp.throttled]).originalMaxRequests <
      (applyOps (arlInit 4 1 2) [ARLOp.throttled]).maxRequests := by
  refine ⟨by norm_num [arlInit], rfl, ?_⟩
  show (4 : ℤ) < max 1 (pyTrunc ((4 : ℚ) * 2))
  rw [show ((4 : ℚ) * 2) = ((8 : ℤ) : ℚ) by norm_num]
  rw [pyTrunc, if_pos (by norm_num), Int.floor_intCast]
  norm_num

lemma lookupStore_nil (k : String) : lookupStore [] k = none := rfl

lemma lookupStore_cons (p : String × String) (s : Store) (k : String) :
    lookupStore (p :: s) k = if k = p.1 then some p.2 else lookupStore s k := by
  cases p with
  | mk a b =>
    by_cases h : k = a
    · simp [lookupStore, List.lookup, h]
    · have hb : (k == a) = false := beq_eq_false_iff_ne.mpr h
      simp [lookupStore, List.lookup, h, hb]

lemma lookupStore_append (s t : Store) (k : String) :
    lookupStore (s ++ t) k =
      match lookupStore s k with
      | some v => some v
      | none => lookupStore t k := by
  induction s with
  | nil => simp [lookupStore_nil]
  | cons p rest ih =>
    rw [List.cons_append, lookupStore_cons, lookupStore_cons]
    by_cases h : k = p.1
    · simp [h]
    · simp [h, ih]

lemma lookupStore_isSome_iff_mem (s : Store) (k : String) :
    (lookupStore s k).isSome ↔ k ∈ storeKeys s := by
  induction s with
  | nil => simp [lookupStore_nil, storeKeys]
  | cons p rest ih =>
    rw [lookupStore_cons]
    by_cases h : k = p.1
    · simp [h, storeKeys]
    · simp [h, storeKeys, ih]

lemma updateStore_lookup_self (s : Store) (k v : String)
    (h : (lookupStore s k).isSome) :
    lookupStore (updateStore s k v) k = some v := by
  induction s with
  | nil => simp [lookupStore_nil] at h
  | cons p rest ih =>
    by_cases hp : p.1 = k
    · simp [updateStore, hp, lookupStore_cons]
    · rw [lookupStore_cons] at h
      rw [if_neg (fun hc => hp hc.symm)] at h
      simp only [updateStore, List.map_cons, if_neg hp]
      rw [lookupStore_cons, if_neg (fun hc => hp hc.symm)]
      exact ih h

lemma updateStore_lookup_other (s : Store) (k v k2 : String) (h : k2 ≠ k) :
    lookupStore (updateStore s k v) k2 = lookupStore s k2 := by
  induction s with
  | nil => simp [updateStore, lookupStore_nil]
  | cons p rest ih =>
    simp only [updateStore, List.map_cons]
    rw [lookupStore_cons, lookupStore_cons]
    by_cases hp : p.1 = k
    · rw [if_pos hp]
      show (if k2 = k then some v else lookupStore (updateStore rest k v) k2) = _
      rw [if_neg h, if_neg (by rw [hp]; exact h)]
      exact ih
    · rw [if_neg hp]
      by_cases hk : k2 = p.1
      · rw [if_pos hk, if_pos hk]
      · rw [if_neg hk, if_neg hk]
        exact ih

lemma lookupStore_append_other (s : Store) (a x k : String) (h : a ≠ k) :
    lookupStore (s ++ [(a, x)]) k = lookupStore s k := by
  rw [lookupStore_append]
  cases hs : lookupStore s k with
  | some v => rfl
  | none =>
    rw [lookupStore_cons, if_neg (fun hc => h hc.symm)]
    rfl

lemma batchStoreGo_lookup_preserved (force : Bool) (exc : ℕ → StoreExc)
    (hexc : ∀ i, exc i = StoreExc.ok) (k : String) :
    ∀ (rs : List ItemResult), (∀ r ∈ rs, r.filing.accessionNumber ≠ k) →
    ∀ (i : ℕ) (committed current : Store) (stats : BatchStats),
    lookupStore (batchStoreGo force exc rs i committed current stats).1 k =
      lookupStore current k := by
  intro rs
  induction rs with
  | nil => intro _ i committed current stats; rfl
  | cons r rest ih =>
    intro hk i committed current stats
    have hkr : r.filing.accessionNumber ≠ k := hk r (by simp)
    have hkrest : ∀ r2 ∈ rest, r2.filing.accessionNumber ≠ k :=
      fun r2 h2 => hk r2 (by simp [h2])
    cases hr : r.result with
    | error msg =>
      simp only [batchStoreGo, hr]
      exact ih hkrest _ _ _ _
    | success xml =>
      cases hl : lookupStore current r.filing.accessionNumber with
      | some v =>
        cases force with
        | true =>
          simp only [batchStoreGo, hr, hexc i, hl, if_true]
          rw [ih hkrest _ _ _ _, updateStore_lookup_other _ _ _ _ (fun hc => hkr hc.symm)]
        | false =>
          simp only [batchStoreGo, hr, hexc i, hl, Bool.false_eq_true, if_false]
          exact ih hkrest _ _ _ _
      | none =>
        simp only [batchStoreGo, hr, hexc i, hl]
        rw [ih hkrest _ _ _ _, lookupStore_append_other _ _ _ _ hkr]

lemma batchStoreGo_target (force : Bool) (exc : ℕ → StoreExc)
    (hexc : ∀ i, exc i = StoreExc.ok) (f : Filing) (xml : String) :
    ∀ (pre : List ItemResult), (∀ r ∈ pre, r.filing.accessionNumber ≠ f.accessionNumber) →
    ∀ (post : List ItemResult),
      (∀ r ∈ post, r.filing.accessionNumber ≠ f.accessionNumber) →
    ∀ (i : ℕ) (committed current : Store) (stats : BatchStats),
      (lookupStore current f.accessionNumber).isSome →
    lookupStore (batchStoreGo force exc
        (pre ++ ItemResult.mk f (DownloadResult.success xml) :: post)
        i committed current stats).1 f.accessionNumber =
      if force then some xml else lookupStore current f.accessionNumber := by
  intro pre
  induction pre with
  | nil =>
    intro _ post hpost i committed current stats hsome
    obtain ⟨v, hv⟩ := Option.isSome_iff_exists.mp hsome
    cases force with
    | true =>
      simp only [List.nil_append, batchStoreGo, hexc i, hv, if_true]
      rw [batchStoreGo_lookup_preserved true exc hexc _ post hpost _ _ _ _]
      rw [updateStore_lookup_self _ _ _ hsome]
    | false =>
      simp only [List.nil_append, batchStoreGo, hexc i, hv, Bool.false_eq_true, if_false]
      rw [batchStoreGo_lookup_preserved false exc hexc _ post hpost _ _ _ _]
      rw [hv]
  | cons r rest ih =>
    intro hpre post hpost i committed current stats hsome
    have hkr : r.filing.accessionNumber ≠ f.accessionNumber := hpre r (by simp)
    have hkrest : ∀ r2 ∈ rest, r2.filing.accessionNumber ≠ f.accessionNumber :=
      fun r2 h2 => hpre r2 (by simp [h2])
    cases hr : r.result with
    | error msg =>
      simp only [List.cons_append, batchStoreGo, hr]
      exact ih hkrest post hpost _ _ _ _ hsome
    | success xml2 =>
      cases hl : lookupStore current r.filing.accessionNumber with
      | some v =>
        cases force with
        | true =>
          simp only [List.cons_append, batchStoreGo, hr, hexc i, hl, if_true, List.append_eq]
          have hpres : (lookupStore (updateStore current r.filing.accessionNumber xml2)
              f.accessionNumber).isSome := by
            rw [updateStore_lookup_other _ _ _ _ (fun hc => hkr hc.symm)]
            exact hsome
          rw [ih hkrest post hpost _ _ _ _ hpres]
          simp
        | false =>
          simp only [List.cons_append, batchStoreGo, hr, hexc i, hl, Bool.false_eq_true,
            if_false]
          exact ih hkrest post hpost _ _ _ _ hsome
      | none =>
        simp only [List.cons_append, batchStoreGo, hr, hexc i, hl, List.append_eq]
        have hpres : (lookupStore (current ++ [(r.filing.accessionNumber, xml2)])
            f.accessionNumber).isSome := by
          rw [lookupStore_append_other _ _ _ _ hkr]
          exact hsome
        rw [ih hkrest post hpost _ _ _ _ hpres]
        rw [lookupStore_append_other _ _ _ _ hkr]

/-- C7: treatment of an item whose natural key is already stored, when no
storage exception occurs and no other item of the batch carries the same key.
With force the store stage overwrites the stored content in place — the stored
content afterwards is the newly fetched content — and the item is counted as
stored, not skipped; without force the item is skipped (neither stored nor an
error is counted) and the stored content is unchanged. -/
theorem batchStore_force_overwrite (force : Bool) (S : Store) (pre post : List ItemResult)
    (f : Filing) (xml : String)
    (hpresent : (lookupStore S f.accessionNumber).isSome)
    (hothers : ∀ r ∈ pre ++ post, r.filing.accessionNumber ≠ f.accessionNumber) :
    (lookupStore (batchStoreFilings force allOk S
        (pre ++ ItemResult.mk f (DownloadResult.success xml) :: post)).1 f.accessionNumber =
      if force then some xml else lookupStore S f.accessionNumber) ∧
    (batchStoreFilings true allOk S [ItemResult.mk f (DownloadResult.success xml)]).2 =
      ⟨1, 0⟩ ∧
    (batchStoreFilings false allOk S [ItemResult.mk f (DownloadResult.success xml)]).2 =
      ⟨0, 0⟩ := by
  obtain ⟨v, hv⟩ := Option.isSome_iff_exists.mp hpresent
  refine ⟨?_, ?_, ?_⟩
  · exact batchStoreGo_target force allOk (fun _ => rfl) f xml pre
      (fun r h => hothers r (List.mem_append_left _ h)) post
      (fun r h => hothers r (List.mem_append_right _ h)) 0 S S ⟨0, 0⟩ hpresent
  · simp [batchStoreFilings, batchStoreGo, allOk, hv]
  · simp [batchStoreFilings, batchStoreGo, allOk, hv]

/-- C7 witness: a one-item batch over a store already holding the key. -/
theorem batchStore_force_overwrite_witness :
    (lookupStore [("k", "old")] "k").isSome ∧
    (lookupStore (batchStoreFilings true allOk [("k", "old")]
        ([] ++ ItemResult.mk ⟨"k", "c1"⟩ (DownloadResult.success "new") :: [])).1 "k" =
      if true then some "new" else lookupStore [("k", "old")] "k") ∧
    (batchStoreFilings true allOk [("k", "old")]
      [ItemResult.mk ⟨"k", "c1"⟩ (DownloadResult.success "new")]).2 = ⟨1, 0⟩ ∧
    (batchStoreFilings false allOk [("k", "old")]
      [ItemResult.mk ⟨"k", "c1"⟩ (DownloadResult.success "new")]).2 = ⟨0, 0⟩ := by
  have h := batchStore_force_overwrite true [("k", "old")] [] []
    (⟨"k", "c1"⟩ : Filing) "new" (by rw [lookupStore_cons]; simp) (by simp)
  exact ⟨by rw [lookupStore_cons]; simp, h.1, h.2.1, h.2.2⟩

lemma batchStoreGo_ok_store (exc : ℕ → StoreExc) (hexc : ∀ i, exc i = StoreExc.ok) :
    ∀ (rs : List ItemResult) (i : ℕ) (committed current : Store) (stats : BatchStats),
    (batchStoreGo false exc rs i committed current stats).1 = rs.foldl insertResult current := by
  intro rs
  induction rs with
  | nil => intro i committed current stats; rfl
  | cons r rest ih =>
    intro i committed current stats
    cases hr : r.result with
    | error msg =>
      simp only [batchStoreGo, hr, List.foldl_cons]
      rw [ih _ _ _ _]
      congr 1
      simp [insertResult, hr]
    | success xml =>
      cases hl : lookupStore current r.filing.accessionNumber with
      | some v =>
        simp only [batchStoreGo, hr, hexc i, hl, Bool.false_eq_true, if_false, List.foldl_cons]
        rw [ih _ _ _ _]
        congr 1
        simp [insertResult, hr, hl]
      | none =>
        simp only [batchStoreGo, hr, hexc i, hl, List.foldl_cons]
        rw [ih _ _ _ _]
        congr 1
        simp [insertResult, hr, hl]

lemma batchStoreGo_all_error (force : Bool) (exc : ℕ → StoreExc) :
    ∀ (rs : List ItemResult), (∀ r ∈ rs, isSuccess r.result = false) →
    ∀ (i : ℕ) (committed current : Store) (stats : BatchStats),
    batchStoreGo force exc rs i committed current stats =
      (current, ⟨stats.stored, stats.errors + rs.length⟩) := by
  intro rs
  induction rs with
  | nil =>
    intro _ i committed current stats
    cases stats
    simp [batchStoreGo]
  | cons r rest ih =>
    intro h i committed current stats
    have hr : isSuccess r.result = false := h r (by simp)
    cases hres : r.result with
    | success xml =>
      rw [hres] at hr
      simp [isSuccess] at hr
    | error msg =>
      simp only [batchStoreGo, hres]
      rw [ih (fun r2 h2 => h r2 (by simp [h2])) _ _ _ _, List.length_cons]
      have heq : stats.errors + 1 + rest.length = stats.errors + (rest.length + 1) := by
        omega
      rw [heq]

lemma chunksOf_flatten (n : ℕ) : ∀ (l : List α), (chunksOf n l).flatten = l
  | [] => by simp [chunksOf]
  | x :: xs => by
    rw [chunksOf, List.flatten_cons, chunksOf_flatten n ((x :: xs).drop (n + 1))]
    exact List.take_append_drop _ _
termination_by l => l.length
decreasing_by simp [List.length_drop]; omega

lemma processChunks_ok_store (fetch : Filing → DownloadResult) (exc : ℕ → ℕ → StoreExc)
    (hexc : ∀ j i, exc j i = StoreExc.ok) :
    ∀ (chunks : List (List Filing)) (j : ℕ) (store : Store) (stats : RunStats),
    (processChunks false fetch exc chunks j store stats).1 =
      runInsert fetch store chunks.flatten := by
  intro chunks
  induction chunks with
  | nil => intro j store stats; simp [processChunks, runInsert]
  | cons c rest ih =>
    intro j store stats
    have hb : (batchStoreFilings false (exc j) store
        (c.map (fun f => ItemResult.mk f (fetch f)))).1 = runInsert fetch store c := by
      rw [batchStoreFilings, batchStoreGo_ok_store (exc j) (hexc j)]
      simp [runInsert, List.foldl_map]
    simp only [processChunks]
    rw [ih, hb, List.flatten_cons]
    simp [runInsert, List.foldl_append]

lemma processChunks_no_success (fetch : Filing → DownloadResult) (exc : ℕ → ℕ → StoreExc) :
    ∀ (chunks : List (List Filing)), (∀ f ∈ chunks.flatten, isSuccess (fetch f) = false) →
    ∀ (j : ℕ) (store : Store) (stats : RunStats),
    (processChunks false fetch exc chunks j store stats).1 = store ∧
    (processChunks false fetch exc chunks j store stats).2.stored = stats.stored ∧
    (processChunks false fetch exc chunks j store stats).2.skipped = stats.skipped := by
  intro chunks
  induction chunks with
  | nil => intro _ j store stats; exact ⟨rfl, rfl, rfl⟩
  | cons c rest ih =>
    intro h j store stats
    have hc : ∀ r ∈ c.map (fun f => ItemResult.mk f (fetch f)), isSuccess r.result = false := by
      intro r hr
      obtain ⟨f, hf, rfl⟩ := List.mem_map.mp hr
      exact h f (by rw [List.flatten_cons]; exact List.mem_append_left _ hf)
    have hrest : ∀ f ∈ rest.flatten, isSuccess (fetch f) = false := by
      intro f hf
      exact h f (by rw [List.flatten_cons]; exact List.mem_append_right _ hf)
    simp only [processChunks, batchStoreFilings]
    rw [batchStoreGo_all_error false (exc j) _ hc _ _ _ _]
    dsimp only
    refine ⟨(ih hrest (j + 1) store _).1, ?_, ?_⟩
    · rw [(ih hrest (j + 1) store _).2.1]
      simp
    · rw [(ih hrest (j + 1) store _).2.2]

lemma storeKeys_append (s t : Store) : storeKeys (s ++ t) = storeKeys s ++ storeKeys t := by
  simp [storeKeys]

lemma mem_keys_insertResult (store : Store) (r : ItemResult) (k : String)
    (h : k ∈ storeKeys store) : k ∈ storeKeys (insertResult store r) := by
  cases hr : r.result with
  | error msg => simpa [insertResult, hr]
  | success xml =>
    by_cases hsome : (lookupStore store r.filing.accessionNumber).isSome
    · simpa [insertResult, hr, hsome]
    · simp only [insertResult, hr, hsome, Bool.false_eq_true, if_false, storeKeys_append]
      exact List.mem_append_left _ h

lemma mem_keys_runInsert (fetch : Filing → DownloadResult) :
    ∀ (fs : List Filing) (store : Store) (k : String),
    k ∈ storeKeys store → k ∈ storeKeys (runInsert fetch store fs) := by
  intro fs
  induction fs with
  | nil => intro store k h; exact h
  | cons g rest ih =>
    intro store k h
    rw [runInsert, List.foldl_cons]
    exact ih _ k (mem_keys_insertResult store _ k h)

lemma runInsert_success_mem (fetch : Filing → DownloadResult) :
    ∀ (fs : List Filing) (store : Store) (f : Filing),
    f ∈ fs → isSuccess (fetch f) = true →
    f.accessionNumber ∈ storeKeys (runInsert fetch store fs) := by
  intro fs
  induction fs with
  | nil => intro store f hf; simp at hf
  | cons g rest ih =>
    intro store f hf hs
    rw [runInsert, List.foldl_cons]
    rcases List.mem_cons.mp hf with heq | hf2
    · subst heq
      apply mem_keys_runInsert
      cases hfr : fetch f with
      | error msg => rw [hfr] at hs; simp [isSuccess] at hs
      | success xml =>
        by_cases hsome : (lookupStore store f.accessionNumber).isSome
        · have := (lookupStore_isSome_iff_mem store f.accessionNumber).mp hsome
          simpa [insertResult, hfr, hsome]
        · simp only [insertResult, hfr, hsome, Bool.false_eq_true, if_false, storeKeys_append]
          apply List.mem_append_right
          simp [storeKeys]
    · exact ih _ f hf2 hs

lemma nodup_keys_insertResult (store : Store) (r : ItemResult)
    (h : (storeKeys store).Nodup) : (storeKeys (insertResult store r)).Nodup := by
  cases hr : r.result with
  | error msg => simpa [insertResult, hr]
  | success xml =>
    by_cases hsome : (lookupStore store r.filing.accessionNumber).isSome
    · simpa [insertResult, hr, hsome]
    · have hmem : r.filing.accessionNumber ∉ storeKeys store := by
        rw [← lookupStore_isSome_iff_mem]
        simpa using hsome
      simp only [insertResult, hr, hsome, Bool.false_eq_true, if_false, storeKeys_append]
      simp only [List.nodup_append]
      refine ⟨h, by simp [storeKeys], ?_⟩
      intro a ha hb
      simp [storeKeys] at hb
      subst hb
      exact hmem ha

lemma nodup_keys_runInsert (fetch : Filing → DownloadResult) :
    ∀ (fs : List Filing) (store : Store),
    (storeKeys store).Nodup → (storeKeys (runInsert fetch store fs)).Nodup := by
  intro fs
  induction fs with
  | nil => intro store h; exact h
  | cons g rest ih =>
    intro store h
    rw [runInsert, List.foldl_cons]
    exact ih _ (nodup_keys_insertResult store _ h)

lemma downloadAndStore_store (fetch : Filing → DownloadResult) (exc : ℕ → ℕ → StoreExc)
    (hexc : ∀ j i, exc j i = StoreExc.ok) (S0 : Store) (fs : List Filing) :
    (downloadAndStoreFilings false fetch exc S0 fs).1 =
      runInsert fetch S0 (fs.filter (fun f => (lookupStore S0 f.accessionNumber).isNone)) := by
  simp only [downloadAndStoreFilings, Bool.false_eq_true, if_false]
  rw [processChunks_ok_store fetch exc hexc, chunksOf_flatten]

lemma downloadAndStore_no_success (fetch : Filing → DownloadResult) (exc : ℕ → ℕ → StoreExc)
    (S : Store) (fs : List Filing)
    (h : ∀ f ∈ fs.filter (fun f => (lookupStore S f.accessionNumber).isNone),
      isSuccess (fetch f) = false) :
    (downloadAndStoreFilings false fetch exc S fs).1 = S ∧
    (downloadAndStoreFilings false fetch exc S fs).2.stored = 0 := by
  simp only [downloadAndStoreFilings, Bool.false_eq_true, if_false]
  have hj : ∀ f ∈ (chunksOf 49 (fs.filter
      (fun f => (lookupStore S f.accessionNumber).isNone))).flatten,
      isSuccess (fetch f) = false := by
    rw [chunksOf_flatten]
    exact h
  obtain ⟨h1, h2, _⟩ := processChunks_no_success fetch exc _ hj 0 S _
  exact ⟨h1, h2⟩

/-- C6: non-force ingestion is idempotent over the natural key.  With an
exception-free store, running the ingest twice from the same descriptor list
yields the same final store as running it once (hence the same stored-record
count); the second run stores nothing; under a duplicate-free initial store no
natural key is ever stored twice (the final key list is duplicate-free); and
every successfully fetched descriptor is present in the store after the first
run — which is exactly why the second run's existence pre-filter classifies
all previously stored items as skipped. -/
theorem downloadAndStore_idempotent (fetch : Filing → DownloadResult) (S0 : Store)
    (fs : List Filing) (hnd : (storeKeys S0).Nodup) :
    (downloadAndStoreFilings false fetch allOk2
        (downloadAndStoreFilings false fetch allOk2 S0 fs).1 fs).1 =
      (downloadAndStoreFilings false fetch allOk2 S0 fs).1 ∧
    (storeKeys (downloadAndStoreFilings false fetch allOk2 S0 fs).1).Nodup ∧
    (downloadAndStoreFilings false fetch allOk2
        (downloadAndStoreFilings false fetch allOk2 S0 fs).1 fs).2.stored = 0 ∧
    (∀ f ∈ fs, isSuccess (fetch f) = true →
      (lookupStore (downloadAndStoreFilings false fetch allOk2 S0 fs).1
        f.accessionNumber).isSome) := by
  have hexc : ∀ j i, allOk2 j i = StoreExc.ok := fun _ _ => rfl
  have hS1 : (downloadAndStoreFilings false fetch allOk2 S0 fs).1 =
      runInsert fetch S0 (fs.filter (fun f => (lookupStore S0 f.accessionNumber).isNone)) :=
    downloadAndStore_store fetch allOk2 hexc S0 fs
  have hsucc : ∀ f ∈ fs, isSuccess (fetch f) = true →
      (lookupStore (downloadAndStoreFilings false fetch allOk2 S0 fs).1
        f.accessionNumber).isSome := by
    intro f hf hs
    rw [lookupStore_isSome_iff_mem, hS1]
    by_cases hmem : f.accessionNumber ∈ storeKeys S0
    · exact mem_keys_runInsert fetch _ S0 _ hmem
    · apply runInsert_success_mem fetch _ S0 f _ hs
      rw [List.mem_filter]
      refine ⟨hf, ?_⟩
      rw [← lookupStore_isSome_iff_mem] at hmem
      cases hlk : lookupStore S0 f.accessionNumber with
      | none => rfl
      | some v => rw [hlk] at hmem; simp at hmem
  have hfail : ∀ f ∈ fs.filter (fun f =>
      (lookupStore (downloadAndStoreFilings false fetch allOk2 S0 fs).1
        f.accessionNumber).isNone), isSuccess (fetch f) = false := by
    intro f hf
    rw [List.mem_filter] at hf
    cases hs : isSuccess (fetch f) with
    | false => rfl
    | true =>
      exfalso
      have h2 := hsucc f hf.1 hs
      have h3 := hf.2
      rw [Option.isNone_iff_eq_none] at h3
      rw [h3] at h2
      simp at h2
  obtain ⟨h1, h2⟩ := downloadAndStore_no_success fetch allOk2 _ fs hfail
  refine ⟨h1, ?_, h2, hsucc⟩
  rw [hS1]
  exact nodup_keys_runInsert fetch _ S0 hnd

/-- C6 witness: the idempotence theorem at a concrete run — empty store, a
repeated key and one permanently failing descriptor. -/
theorem downloadAndStore_idempotent_witness :
    (storeKeys ([] : Store)).Nodup ∧
    ((downloadAndStoreFilings false c6Fetch allOk2
        (downloadAndStoreFilings false c6Fetch allOk2 [] c6Filings).1 c6Filings).1 =
      (downloadAndStoreFilings false c6Fetch allOk2 [] c6Filings).1 ∧
    (storeKeys (downloadAndStoreFilings false c6Fetch allOk2 [] c6Filings).1).Nodup ∧
    (downloadAndStoreFilings false c6Fetch allOk2
        (downloadAndStoreFilings false c6Fetch allOk2 [] c6Filings).1 c6Filings).2.stored = 0 ∧
    (∀ f ∈ c6Filings, isSuccess (c6Fetch f) = true →
      (lookupStore (downloadAndStoreFilings false c6Fetch allOk2 [] c6Filings).1
        f.accessionNumber).isSome)) :=
  ⟨by simp [storeKeys],
    downloadAndStore_idempotent c6Fetch [] c6Filings (by simp [storeKeys])⟩

lemma psbGo_append (exc : ℕ → StoreExc) :
    ∀ (items1 items2 : List (Filing × String)) (i : ℕ) (store : Store) (stats : BatchStats),
    processStorageBatchGo exc (items1 ++ items2) i store stats =
      processStorageBatchGo exc items2 (i + items1.length)
        (processStorageBatchGo exc items1 i store stats).1
        (processStorageBatchGo exc items1 i store stats).2 := by
  intro items1
  induction items1 with
  | nil => intro items2 i store stats; simp [processStorageBatchGo]
  | cons b rest ih =>
    intro items2 i store stats
    have hidx : i + 1 + rest.length = i + (rest.length + 1) := by omega
    cases hexc : exc i with
    | failure =>
      simp only [List.cons_append, processStorageBatchGo, hexc, List.length_cons,
        List.append_eq]
      rw [ih, hidx]
    | integrityOther =>
      simp only [List.cons_append, processStorageBatchGo, hexc, List.length_cons,
        List.append_eq]
      rw [ih, hidx]
    | dupKey =>
      simp only [List.cons_append, processStorageBatchGo, hexc, List.length_cons,
        List.append_eq]
      rw [ih, hidx]
    | ok =>
      cases hl : lookupStore store b.1.accessionNumber with
      | some v =>
        simp only [List.cons_append, processStorageBatchGo, hexc, hl, List.length_cons,
          List.append_eq]
        rw [ih, hidx]
      | none =>
        simp only [List.cons_append, processStorageBatchGo, hexc, hl, List.length_cons,
          List.append_eq]
        rw [ih, hidx]

lemma lookupStore_map_eq_none (items : List (Filing × String)) (k : String)
    (h : k ∉ items.map (fun b => b.1.accessionNumber)) :
    lookupStore (items.map (fun b => (b.1.accessionNumber, b.2))) k = none := by
  cases hl : lookupStore (items.map (fun b => (b.1.accessionNumber, b.2))) k with
  | none => rfl
  | some v =>
    exfalso
    have hmem := (lookupStore_isSome_iff_mem _ k).mp (by rw [hl]; rfl)
    apply h
    simpa [storeKeys, List.map_map, Function.comp] using hmem

lemma psbGo_fresh_ok (exc : ℕ → StoreExc) :
    ∀ (items : List (Filing × String)) (i : ℕ) (store : Store) (stats : BatchStats),
    (∀ j, j < items.length → exc (i + j) = StoreExc.ok) →
    (∀ b ∈ items, lookupStore store b.1.accessionNumber = none) →
    ((items.map (fun b => b.1.accessionNumber)).Nodup) →
    processStorageBatchGo exc items i store stats =
      (store ++ items.map (fun b => (b.1.accessionNumber, b.2)),
        ⟨stats.stored + items.length, stats.errors⟩) := by
  intro items
  induction items with
  | nil =>
    intro i store stats _ _ _
    cases stats
    simp [processStorageBatchGo]
  | cons b rest ih =>
    intro i store stats hexc hfresh hnd
    have hb : exc i = StoreExc.ok := by simpa using hexc 0 (by simp)
    have hlk : lookupStore store b.1.accessionNumber = none := hfresh b (by simp)
    have hhead : b.1.accessionNumber ∉ rest.map (fun b2 => b2.1.accessionNumber) := by
      rw [List.map_cons, List.nodup_cons] at hnd
      exact hnd.1
    have hndrest : (rest.map (fun b2 => b2.1.accessionNumber)).Nodup := by
      rw [List.map_cons, List.nodup_cons] at hnd
      exact hnd.2
    simp only [processStorageBatchGo, hb, hlk]
    rw [ih (i + 1) _ _
      (by
        intro j hj
        have := hexc (j + 1) (by simp; omega)
        rwa [show i + (j + 1) = i + 1 + j from by omega] at this)
      (by
        intro b2 hb2
        rw [lookupStore_append_other]
        · exact hfresh b2 (by simp [hb2])
        · intro hceq
          apply hhead
          rw [hceq]
          exact List.mem_map_of_mem _ hb2)
      hndrest]
    simp only [Prod.mk.injEq, BatchStats.mk.injEq, List.map_cons, List.length_cons]
    refine ⟨?_, by omega, trivial⟩
    rw [List.append_assoc]
    rfl

/-- C8 (amended): per-item treatment of a mid-batch storage exception.  In
`BulkProcessor._process_storage_batch` each item runs in its own transaction,
so a generic storage exception at one position is counted as exactly one
error and every other (fresh, distinct-keyed) item of the batch is stored:
for a batch `pre ++ bad :: post` whose single failure is `bad`, the final
store gains exactly the records of `pre` and `post` and the counters read
`(pre.length + post.length)` stored, 1 error.  (In
`SECBulkDownloader._batch_store_filings`, which runs the whole batch in one
session, the accompanying rollback also discards the not-yet-committed
earlier items — see the counterexample.) -/
theorem processStorageBatch_fault_isolation (S : Store)
    (pre post : List (Filing × String)) (bad : Filing × String)
    (hfresh : ∀ b ∈ pre ++ bad :: post, lookupStore S b.1.accessionNumber = none)
    (hnodup : ((pre ++ bad :: post).map (fun b => b.1.accessionNumber)).Nodup) :
    processStorageBatch (failAt pre.length) S (pre ++ bad :: post) =
      (S ++ pre.map (fun b => (b.1.accessionNumber, b.2))
          ++ post.map (fun b => (b.1.accessionNumber, b.2)),
        ⟨pre.length + post.length, 1⟩) := by
  rw [List.map_append, List.map_cons, List.nodup_append] at hnodup
  obtain ⟨hndpre, hndcons, hdisj⟩ := hnodup
  rw [List.nodup_cons] at hndcons
  have hpre : processStorageBatchGo (failAt pre.length) pre 0 S ⟨0, 0⟩ =
      (S ++ pre.map (fun b => (b.1.accessionNumber, b.2)), ⟨pre.length, 0⟩) := by
    rw [psbGo_fresh_ok (failAt pre.length) pre 0 S ⟨0, 0⟩
      (by
        intro j hj
        simp only [failAt, Nat.zero_add]
        rw [if_neg (by omega)])
      (fun b hb => hfresh b (List.mem_append_left _ hb)) hndpre]
    simp
  have hfreshpost : ∀ b ∈ post,
      lookupStore (S ++ pre.map (fun b2 => (b2.1.accessionNumber, b2.2)))
        b.1.accessionNumber = none := by
    intro b hb
    rw [lookupStore_append]
    rw [hfresh b (List.mem_append_right _ (by simp [hb]))]
    apply lookupStore_map_eq_none
    intro hmem
    exact hdisj hmem (by simp [List.mem_map_of_mem _ hb])
  rw [processStorageBatch, psbGo_append, hpre]
  simp only [Nat.zero_add]
  rw [show processStorageBatchGo (failAt pre.length) (bad :: post) pre.length
        (S ++ pre.map (fun b => (b.1.accessionNumber, b.2))) ⟨pre.length, 0⟩ =
      processStorageBatchGo (failAt pre.length) post (pre.length + 1)
        (S ++ pre.map (fun b => (b.1.accessionNumber, b.2))) ⟨pre.length, 1⟩ from by
    simp [processStorageBatchGo, failAt]]
  rw [psbGo_fresh_ok (failAt pre.length) post (pre.length + 1) _ _
    (by
      intro j hj
      simp only [failAt]
      rw [if_neg (by omega)])
    hfreshpost hndcons.2]

/-- C8 witness: a three-item batch whose middle item raises, over an empty
store: the other two are stored and exactly one error is counted. -/
theorem processStorageBatch_fault_isolation_witness :
    (∀ b ∈ ([(⟨"A", "1"⟩, "xa")] ++ (⟨"B", "2"⟩, "xb") :: [(⟨"C", "3"⟩, "xc")] :
        List (Filing × String)), lookupStore [] b.1.accessionNumber = none) ∧
    processStorageBatch (failAt 1) []
        ([(⟨"A", "1"⟩, "xa")] ++ (⟨"B", "2"⟩, "xb") :: [(⟨"C", "3"⟩, "xc")]) =
      ([] ++ [(⟨"A", "1"⟩, "xa")].map
          (fun b : Filing × String => (b.1.accessionNumber, b.2))
          ++ [(⟨"C", "3"⟩, "xc")].map
          (fun b : Filing × String => (b.1.accessionNumber, b.2)),
        ⟨1 + 1, 1⟩) :=
  ⟨by intro b _; rfl,
    processStorageBatch_fault_isolation [] [(⟨"A", "1"⟩, "xa")] [(⟨"C", "3"⟩, "xc")]
      (⟨"B", "2"⟩, "xb") (by intro b _; rfl) (by decide)⟩

/-- C8 counterexample: in `_batch_store_filings` the per-item
`session.rollback()` rolls back the whole uncommitted session.  Storing the
batch A, B, C (all fetched successfully) into an empty store, where storing B
raises a generic exception, leaves only C in the store: the insert of A was
discarded by the rollback even though the stored counter reports 2 — so it is
not true that the other items of the batch are all stored with exactly one
error counted. -/
theorem batchStore_rollback_loses_items :
    batchStoreFilings false (failAt 1) []
        [ItemResult.mk ⟨"A", "1"⟩ (DownloadResult.success "xa"),
          ItemResult.mk ⟨"B", "2"⟩ (DownloadResult.success "xb"),
          ItemResult.mk ⟨"C", "3"⟩ (DownloadResult.success "xc")] =
      ([("C", "xc")], ⟨2, 1⟩) ∧
    lookupStore (batchStoreFilings false (failAt 1) []
        [ItemResult.mk ⟨"A", "1"⟩ (DownloadResult.success "xa"),
          ItemResult.mk ⟨"B", "2"⟩ (DownloadResult.success "xb"),
          ItemResult.mk ⟨"C", "3"⟩ (DownloadResult.success "xc")]).1 "A" = none := by
  constructor
  · rfl
  · rfl

end SecForm4
